import Mathlib

set_option maxHeartbeats 1000000

/-!
Verification of the bounded concurrent batch executor of
`bq-remote-function-agent/customer-advisor/app/fast_api_app.py`
(`process_bq_batch` and its inner `process_row`), the one component the
specification covers.

The embedding is shallow:

* The external agent/backend invocation (ADK `Runner.run_async` plus the final
  session-state read) is abstracted as a function `backend` from a row's
  argument values to an outcome: either a final session state or a raised
  Python exception.  `process_row` constructs a fresh `InMemorySessionService`
  and a fresh `uuid4` session id for every invocation, so the agent run for a
  row starts from an empty, item-private session: the outcome is a function of
  the row's values (and the backend) alone, which is exactly what the
  function-typed `backend` parameter encodes.
* Python exceptions become explicit `Except` results; `asyncio.gather` with
  `return_exceptions=True` becomes a list of per-row outcomes.
* The possibility of an unexpected failure inside the orchestration itself
  (the `except Exception` catch-all around the chunk processing) is modelled
  by a fault oracle `fault : Nat → Option PyError` giving, per chunk index,
  an exception raised by the gathering logic; `fault = fun _ => none` is
  normal operation.
* The `asyncio.Semaphore` concurrency gate and the interleaving of row tasks
  are modelled by a small-step transition system `Step` over scheduler states
  (one phase per row task plus the semaphore's available count).
-/

namespace BatchExecutor

/-! ### String containment, as Python's `in` operator on `str` -/

/-- List version of: `needle` occurs at the start of the second list. -/
def listStartsWith {β : Type} [DecidableEq β] : List β → List β → Bool
  | [], _ => true
  | _ :: _, [] => false
  | a :: as, b :: bs => a = b && listStartsWith as bs

/-- List version of: `needle` occurs contiguously somewhere in the second list. -/
def listHasInside {β : Type} [DecidableEq β] (needle : List β) : List β → Bool
  | [] => listStartsWith needle []
  | b :: hay => listStartsWith needle (b :: hay) || listHasInside needle (hay)

/-- Python's substring test `needle in hay`. -/
def strContains (hay needle : String) : Bool :=
  listHasInside needle.data hay.data

/-! ### Data model, from `fast_api_app.py` -/

/-- Final session state read back after the agent run: the three keys
`process_row` extracts with `state.get(key, "NO_ISSUE")`. -/
structure SessionState where
  security_results : Option String
  billing_results : Option String
  retention_results : Option String
deriving DecidableEq

/-- Model of a raised Python exception: its type name, its `str()` message,
and—when the exception is an exception group (a `TaskGroup` failure)—the
messages of `e.exceptions`.  `hasattr(e, "exceptions") and e.exceptions`
is truthy exactly when `subExceptions` is nonempty. -/
structure PyError where
  typeName : String
  msg : String
  subExceptions : List String
deriving DecidableEq

/-- Outcome of the backend (agent) invocation for one row: either the final
session state, or a raised exception. -/
inductive BackendOutcome where
  | ok (st : SessionState)
  | err (e : PyError)
deriving DecidableEq

/-- Outcome of one `process_row` task: a returned reply string, or a raised
`TransientError` carrying the classified quota message. -/
inductive RowResult where
  | reply (s : String)
  | transient (m : String)
deriving DecidableEq

/-- Model of FastAPI's `HTTPException`. -/
structure HTTPException where
  status_code : Nat
  detail : String
deriving DecidableEq

/-- The `HTTPException(status_code=500, detail="Quota Exceeded (429). Retryable.")`
raised when a `TransientError` is found among the chunk results. -/
def quotaRetryExc : HTTPException :=
  { status_code := 500, detail := "Quota Exceeded (429). Retryable." }

/-- The `HTTPException(status_code=500, detail="Internal Batch Processing Error")`
raised by the catch-all around the chunk processing. -/
def internalBatchExc : HTTPException :=
  { status_code := 500, detail := "Internal Batch Processing Error" }

/-- The response model `BQResponse(replies=...)`. -/
structure BQResponse where
  replies : List String
deriving DecidableEq

/-! ### JSON serialization of the two reply shapes built by `process_row` -/

/-- Escape of one character inside a JSON string literal. -/
def jsonEscapeChar (c : Char) : String :=
  if c = '\\' then "\\\\" else if c = '"' then "\\\"" else String.singleton c

/-- JSON string literal for `s`. -/
def jsonQuote (s : String) : String :=
  "\"" ++ String.join (s.data.map jsonEscapeChar) ++ "\""

/-- The value `json.dumps(structured_result)` for the success dictionary built
from the session state (defaults `"NO_ISSUE"` as in `state.get`). -/
def jsonDumpsStructured (st : SessionState) : String :=
  "\x7b\"security\": " ++ jsonQuote (st.security_results.getD "NO_ISSUE") ++
  ", \"billing\": " ++ jsonQuote (st.billing_results.getD "NO_ISSUE") ++
  ", \"retention\": " ++ jsonQuote (st.retention_results.getD "NO_ISSUE") ++ "\x7d"

/-- The value `json.dumps({"error": err_msg})` for a permanent per-item error. -/
def jsonDumpsError (msg : String) : String :=
  "\x7b\"error\": " ++ jsonQuote msg ++ "\x7d"

/-- The value `json.dumps({"error": f"Internal Task Error: {str(res)}"})` used by
the chunk loop for a non-`TransientError` exception value. -/
def jsonDumpsInternalTaskError (msg : String) : String :=
  "\x7b\"error\": " ++ jsonQuote ("Internal Task Error: " ++ msg) ++ "\x7d"

/-! ### `process_row` -/

/-- The `err_msg` computed by `process_row`'s `except` block: the exception's
`str()`, except that for an exception group the first sub-exception is
unwrapped as `f"{err_type} sub-error: {str(e.exceptions[0])}"`. -/
def errMsg (e : PyError) : String :=
  match e.subExceptions with
  | [] => e.msg
  | s :: _ => e.typeName ++ " sub-error: " ++ s

/-- The transient test of `process_row`:
`"429" in err_msg or "RESOURCE_EXHAUSTED" in err_msg`. -/
def isQuotaMsg (msg : String) : Bool :=
  strContains msg "429" || strContains msg "RESOURCE_EXHAUSTED"

/-- One row task, after acquiring the gate (see the scheduler model below for
the gate): run the agent on the row inside a fresh session, serialize the
structured result; on an exception, compute `err_msg`, raise `TransientError`
for a quota/rate-limit signature, and otherwise return the per-item error
payload.  The fresh `InMemorySessionService` and `uuid4` session id make the
run a function of the row values alone, hence the `backend` abstraction. -/
def process_row {α : Type} (backend : List α → BackendOutcome)
    (row_values : List α) : RowResult :=
  match backend row_values with
  | BackendOutcome.ok st => RowResult.reply (jsonDumpsStructured st)
  | BackendOutcome.err e =>
      let msg := errMsg e
      if isQuotaMsg msg then RowResult.transient msg
      else RowResult.reply (jsonDumpsError msg)

/-- Whether `process_row` classifies this row's outcome as transient
(i.e. raises `TransientError`). -/
def rowIsTransient {α : Type} (backend : List α → BackendOutcome)
    (row : List α) : Bool :=
  match process_row backend row with
  | RowResult.transient _ => true
  | RowResult.reply _ => false

/-- The reply string of a non-transient row (for a transient row this value is
never used by the lemmas below; it defaults to the carried message). -/
def getReplyStr {α : Type} (backend : List α → BackendOutcome)
    (row : List α) : String :=
  match process_row backend row with
  | RowResult.reply s => s
  | RowResult.transient m => m

/-! ### Chunking: `for i in range(0, len(calls), CHUNK_SIZE)` -/

/-- The constant `CHUNK_SIZE = 10` of `process_bq_batch`. -/
def CHUNK_SIZE : Nat := 10

/-- Fuel-indexed chunking; the fuel only bounds recursion depth (each step
consumes at least one element, so `xs.length` fuel is always enough). -/
def chunkListAux {β : Type} : Nat → List β → List (List β)
  | 0, _ => []
  | _ + 1, [] => []
  | fuel + 1, x :: xs =>
      (x :: xs.take (CHUNK_SIZE - 1)) :: chunkListAux fuel (xs.drop (CHUNK_SIZE - 1))

/-- The successive slices `calls[i : i + CHUNK_SIZE]` for
`i = 0, CHUNK_SIZE, 2*CHUNK_SIZE, ...`. -/
def chunkList {β : Type} (xs : List β) : List (List β) :=
  chunkListAux xs.length xs

/-! ### The chunk loop of `process_bq_batch` -/

/-- One element of `chunk_results` as returned by
`asyncio.gather(*tasks, return_exceptions=True)`: a reply string, a caught
`TransientError`, or some other caught exception.  (`process_row` catches
every `Exception`, so `otherExc` is unreachable from it; the loop still
handles it, and the model keeps that branch.) -/
inductive GatherItem where
  | str (s : String)
  | transientExc (m : String)
  | otherExc (m : String)
deriving DecidableEq

/-- Wraps one row task's outcome the way `gather(..., return_exceptions=True)`
presents it to the loop. -/
def toGatherItem : RowResult → GatherItem
  | RowResult.reply s => GatherItem.str s
  | RowResult.transient m => GatherItem.transientExc m

/-- The `chunk_results` of one chunk: one task per row, gathered in order. -/
def gatherChunk {α : Type} (backend : List α → BackendOutcome)
    (chunk : List (List α)) : List GatherItem :=
  chunk.map (fun row => toGatherItem (process_row backend row))

/-- The `for res in chunk_results` loop: a `TransientError` value raises the
quota-retry `HTTPException` immediately; another exception value appends an
"Internal Task Error" payload; a string is appended as-is. -/
def collectLoop : List GatherItem → List String → Except HTTPException (List String)
  | [], acc => Except.ok acc
  | GatherItem.transientExc _ :: _, _ => Except.error quotaRetryExc
  | GatherItem.otherExc m :: rest, acc =>
      collectLoop rest (acc ++ [jsonDumpsInternalTaskError m])
  | GatherItem.str s :: rest, acc => collectLoop rest (acc ++ [s])

/-- The outer `for` over chunks with its `try/except`: if the gathering logic
itself raises at this chunk (`fault idx = some e`), the catch-all converts it
to the internal-batch `HTTPException`; the quota-retry `HTTPException` raised
inside the loop is re-raised unchanged (`except HTTPException: raise`);
otherwise the accumulated replies flow into the next chunk. -/
def runChunks {α : Type} (backend : List α → BackendOutcome)
    (fault : Nat → Option PyError) :
    List (List (List α)) → Nat → List String → Except HTTPException (List String)
  | [], _, acc => Except.ok acc
  | chunk :: rest, idx, acc =>
      match fault idx with
      | some _ => Except.error internalBatchExc
      | none =>
          match collectLoop (gatherChunk backend chunk) acc with
          | Except.error e => Except.error e
          | Except.ok acc' => runChunks backend fault rest (idx + 1) acc'

/-- The endpoint `process_bq_batch`: chunk the calls, process the chunks in
order threading the `replies` accumulator, and wrap the final list in a
`BQResponse`; a raised `HTTPException` is the error case. -/
def process_bq_batch {α : Type} (backend : List α → BackendOutcome)
    (fault : Nat → Option PyError) (calls : List (List α)) :
    Except HTTPException BQResponse :=
  Except.map BQResponse.mk (runChunks backend fault (chunkList calls) 0 [])

/-! ### Scheduler model: the `asyncio.Semaphore` gate and task interleaving

`MAX_CONCURRENT_ROWS = 10` and `global_semaphore = asyncio.Semaphore(10)` in
the source.  Each row task executes `async with global_semaphore:` around its
whole body, so its life is: `pending` (created, awaiting the gate),
`executing` (gate slot held, body running), `done` (body exited — by returning
a reply, by raising `TransientError`, or by being cancelled — and the slot
released by the `async with` epilogue).  The event loop interleaves tasks
arbitrarily; `Step` has one transition per scheduling decision. -/

/-- The constant `MAX_CONCURRENT_ROWS = 10`. -/
def MAX_CONCURRENT_ROWS : Nat := 10

/-- How a row task's body exits: completing with its `RowResult` (return or
`TransientError` raise), or being cancelled by the runtime. -/
inductive TaskExit where
  | completed (r : RowResult)
  | cancelled
deriving DecidableEq

/-- Phase of one row task. -/
inductive Phase where
  | pending
  | executing
  | done (e : TaskExit)
deriving DecidableEq

/-- Scheduler state: the phase of each row task of the batch, and the
semaphore's available count. -/
structure SchedState where
  phases : List Phase
  avail : Nat
deriving DecidableEq

/-- Number of tasks currently holding a gate slot. -/
def countExec : List Phase → Nat
  | [] => 0
  | p :: ps => (if p = Phase.executing then 1 else 0) + countExec ps

/-- Initial scheduler state for a batch: every task pending, the semaphore at
its full count `MAX_CONCURRENT_ROWS`. -/
def initState {α : Type} (calls : List (List α)) : SchedState :=
  { phases := List.replicate calls.length Phase.pending
    avail := MAX_CONCURRENT_ROWS }

/-- One scheduling step.  `acquire` fires only when the semaphore has a free
slot (`asyncio.Semaphore.acquire` suspends at zero) and decrements it;
both exit transitions model the `async with` epilogue releasing the slot,
whether the body completed (with the `process_row` outcome for that task's
row) or the task was cancelled mid-body. -/
inductive Step {α : Type} (backend : List α → BackendOutcome)
    (calls : List (List α)) : SchedState → SchedState → Prop
  | acquire (s : SchedState) (i : Nat) (hi : i < s.phases.length) :
      s.phases.get ⟨i, hi⟩ = Phase.pending → 0 < s.avail →
      Step backend calls s
        { phases := s.phases.set i Phase.executing, avail := s.avail - 1 }
  | finishTask (s : SchedState) (i : Nat) (hi : i < s.phases.length)
      (hic : i < calls.length) :
      s.phases.get ⟨i, hi⟩ = Phase.executing →
      Step backend calls s
        { phases := s.phases.set i
            (Phase.done (TaskExit.completed (process_row backend (calls.get ⟨i, hic⟩))))
          avail := s.avail + 1 }
  | cancelTask (s : SchedState) (i : Nat) (hi : i < s.phases.length) :
      s.phases.get ⟨i, hi⟩ = Phase.executing →
      Step backend calls s
        { phases := s.phases.set i (Phase.done TaskExit.cancelled)
          avail := s.avail + 1 }

/-- States the scheduler can reach from the start of a batch. -/
def Reachable {α : Type} (backend : List α → BackendOutcome)
    (calls : List (List α)) (s : SchedState) : Prop :=
  Relation.ReflTransGen (Step backend calls) (initState calls) s

/-! ### Lemmas about chunking -/

theorem chunkListAux_flatten {β : Type} :
    ∀ (fuel : Nat) (xs : List β), xs.length ≤ fuel →
      (chunkListAux fuel xs).flatten = xs := by
  intro fuel
  induction fuel with
  | zero =>
      intro xs h
      cases xs with
      | nil => simp [chunkListAux]
      | cons x xs => simp at h
  | succ n ih =>
      intro xs h
      cases xs with
      | nil => simp [chunkListAux]
      | cons x xs =>
          simp only [chunkListAux, List.flatten_cons]
          rw [ih (xs.drop (CHUNK_SIZE - 1))]
          · simp [List.take_append_drop]
          · simp only [List.length_drop]
            simp only [List.length_cons] at h
            omega

theorem chunkList_flatten {β : Type} (xs : List β) : (chunkList xs).flatten = xs :=
  chunkListAux_flatten xs.length xs (Nat.le_refl _)

theorem chunkListAux_mem {β : Type} :
    ∀ (fuel : Nat) (xs : List β) (c : List β), c ∈ chunkListAux fuel xs →
      c.length ≤ CHUNK_SIZE ∧ c ≠ [] := by
  intro fuel
  induction fuel with
  | zero =>
      intro xs c h
      cases xs <;> simp [chunkListAux] at h
  | succ n ih =>
      intro xs c h
      cases xs with
      | nil => simp [chunkListAux] at h
      | cons x xs =>
          simp only [chunkListAux, List.mem_cons] at h
          cases h with
          | inl h =>
              subst h
              constructor
              · simp only [List.length_cons, List.length_take, CHUNK_SIZE]
                omega
              · simp
          | inr h => exact ih _ _ h

theorem chunkListAux_length {β : Type} :
    ∀ (fuel : Nat) (xs : List β), xs.length ≤ fuel →
      (chunkListAux fuel xs).length = (xs.length + (CHUNK_SIZE - 1)) / CHUNK_SIZE := by
  intro fuel
  induction fuel with
  | zero =>
      intro xs h
      cases xs with
      | nil => simp [chunkListAux, CHUNK_SIZE]
      | cons x xs => simp at h
  | succ n ih =>
      intro xs h
      cases xs with
      | nil => simp [chunkListAux, CHUNK_SIZE]
      | cons x xs =>
          simp only [chunkListAux, List.length_cons]
          rw [ih (xs.drop (CHUNK_SIZE - 1))]
          · simp only [List.length_drop, CHUNK_SIZE]
            omega
          · simp only [List.length_drop]
            simp only [List.length_cons] at h
            omega

theorem chunkList_length {β : Type} (xs : List β) :
    (chunkList xs).length = (xs.length + (CHUNK_SIZE - 1)) / CHUNK_SIZE :=
  chunkListAux_length xs.length xs (Nat.le_refl _)

/-! ### Lemmas about the chunk loop -/

theorem process_row_of_not_transient {α : Type} (backend : List α → BackendOutcome)
    (row : List α) (h : rowIsTransient backend row = false) :
    process_row backend row = RowResult.reply (getReplyStr backend row) := by
  cases hpr : process_row backend row with
  | reply s => simp [getReplyStr, hpr]
  | transient m => simp [rowIsTransient, hpr] at h

theorem collectLoop_strs (ss : List String) (acc : List String) :
    collectLoop (ss.map GatherItem.str) acc = Except.ok (acc ++ ss) := by
  induction ss generalizing acc with
  | nil => simp [collectLoop]
  | cons s ss ih => simp [collectLoop, ih]

theorem collectLoop_transient (items : List GatherItem) (acc : List String)
    (h : ∃ m, GatherItem.transientExc m ∈ items) :
    collectLoop items acc = Except.error quotaRetryExc := by
  induction items generalizing acc with
  | nil => obtain ⟨m, hm⟩ := h; simp at hm
  | cons it rest ih =>
      obtain ⟨m, hm⟩ := h
      cases it with
      | transientExc m' => simp [collectLoop]
      | str s => exact ih _ ⟨m, by simpa using hm⟩
      | otherExc m' => exact ih _ ⟨m, by simpa using hm⟩

theorem collectLoop_error (items : List GatherItem) :
    ∀ (acc : List String) (e : HTTPException),
      collectLoop items acc = Except.error e → e = quotaRetryExc := by
  induction items with
  | nil => intro acc e h; simp [collectLoop] at h
  | cons it rest ih =>
      intro acc e h
      cases it with
      | transientExc m =>
          simp only [collectLoop, Except.error.injEq] at h
          exact h.symm
      | str s => exact ih _ _ h
      | otherExc m => exact ih _ _ h

theorem gatherChunk_no_transient {α : Type} (backend : List α → BackendOutcome)
    (chunk : List (List α)) (h : ∀ r ∈ chunk, rowIsTransient backend r = false) :
    gatherChunk backend chunk = (chunk.map (getReplyStr backend)).map GatherItem.str := by
  simp only [gatherChunk, List.map_map]
  apply List.map_congr_left
  intro r hr
  rw [process_row_of_not_transient backend r (h r hr)]
  rfl

theorem gatherChunk_transient_mem {α : Type} (backend : List α → BackendOutcome)
    (chunk : List (List α)) (r : List α) (hr : r ∈ chunk)
    (ht : rowIsTransient backend r = true) :
    ∃ m, GatherItem.transientExc m ∈ gatherChunk backend chunk := by
  cases hpr : process_row backend r with
  | reply s => simp [rowIsTransient, hpr] at ht
  | transient m =>
      exact ⟨m, List.mem_map.mpr ⟨r, hr, by simp [hpr, toGatherItem]⟩⟩

/-! ### Lemmas about the chunk iteration -/

theorem runChunks_ok {α : Type} (backend : List α → BackendOutcome) :
    ∀ (chl : List (List (List α))) (idx : Nat) (acc : List String),
      (∀ r ∈ chl.flatten, rowIsTransient backend r = false) →
      runChunks backend (fun _ => none) chl idx acc
        = Except.ok (acc ++ chl.flatten.map (getReplyStr backend)) := by
  intro chl
  induction chl with
  | nil => intro idx acc h; simp [runChunks]
  | cons c rest ih =>
      intro idx acc h
      rw [List.flatten_cons] at h ⊢
      simp only [runChunks]
      rw [gatherChunk_no_transient backend c
        (fun r hr => h r (List.mem_append.mpr (Or.inl hr)))]
      rw [collectLoop_strs]
      have hih := ih (idx + 1) (acc ++ c.map (getReplyStr backend))
        (fun r hr => h r (List.mem_append.mpr (Or.inr hr)))
      simp [hih, List.map_append, List.append_assoc]

theorem runChunks_transient {α : Type} (backend : List α → BackendOutcome) :
    ∀ (chl : List (List (List α))) (idx : Nat) (acc : List String),
      (∃ r ∈ chl.flatten, rowIsTransient backend r = true) →
      runChunks backend (fun _ => none) chl idx acc = Except.error quotaRetryExc := by
  intro chl
  induction chl with
  | nil =>
      rintro idx acc ⟨r, hr, -⟩
      simp at hr
  | cons c rest ih =>
      rintro idx acc ⟨r, hr, ht⟩
      rw [List.flatten_cons, List.mem_append] at hr
      simp only [runChunks]
      cases hr with
      | inl hrc =>
          rw [collectLoop_transient _ _ (gatherChunk_transient_mem backend c r hrc ht)]
      | inr hrr =>
          by_cases hc : ∀ r' ∈ c, rowIsTransient backend r' = false
          · rw [gatherChunk_no_transient backend c hc, collectLoop_strs]
            exact ih _ _ ⟨r, hrr, ht⟩
          · push_neg at hc
            obtain ⟨r', hr', ht'⟩ := hc
            rw [collectLoop_transient _ _
              (gatherChunk_transient_mem backend c r' hr' (by simpa using ht'))]

theorem runChunks_no_quota {α : Type} (backend : List α → BackendOutcome)
    (fault : Nat → Option PyError) :
    ∀ (chl : List (List (List α))) (idx : Nat) (acc : List String),
      (∀ r ∈ chl.flatten, rowIsTransient backend r = false) →
      runChunks backend fault chl idx acc ≠ Except.error quotaRetryExc := by
  intro chl
  induction chl with
  | nil => intro idx acc h; simp [runChunks]
  | cons c rest ih =>
      intro idx acc h
      rw [List.flatten_cons] at h
      simp only [runChunks]
      cases hf : fault idx with
      | some e =>
          intro hcontra
          simp only [Except.error.injEq, internalBatchExc, quotaRetryExc,
            HTTPException.mk.injEq] at hcontra
          exact absurd hcontra.2 (by decide)
      | none =>
          rw [gatherChunk_no_transient backend c
            (fun r hr => h r (List.mem_append.mpr (Or.inl hr)))]
          rw [collectLoop_strs]
          exact ih _ _ (fun r hr => h r (List.mem_append.mpr (Or.inr hr)))

theorem runChunks_fault {α : Type} (backend : List α → BackendOutcome) (e : PyError)
    (c : List (List α)) (rest : List (List (List α))) (idx : Nat) (acc : List String) :
    runChunks backend (fun _ => some e) (c :: rest) idx acc
      = Except.error internalBatchExc := by
  simp [runChunks]

/-! ### Core results about the whole endpoint -/

theorem batch_ok_of_no_transient {α : Type} (backend : List α → BackendOutcome)
    (calls : List (List α)) (h : ∀ r ∈ calls, rowIsTransient backend r = false) :
    process_bq_batch backend (fun _ => none) calls
      = Except.ok ⟨calls.map (getReplyStr backend)⟩ := by
  unfold process_bq_batch
  rw [runChunks_ok backend (chunkList calls) 0 []
    (by rw [chunkList_flatten]; exact h)]
  rw [chunkList_flatten]
  rfl

theorem batch_error_of_transient {α : Type} (backend : List α → BackendOutcome)
    (calls : List (List α)) (h : ∃ r ∈ calls, rowIsTransient backend r = true) :
    process_bq_batch backend (fun _ => none) calls = Except.error quotaRetryExc := by
  unfold process_bq_batch
  rw [runChunks_transient backend (chunkList calls) 0 []
    (by rw [chunkList_flatten]; exact h)]
  rfl

/-! ### Lemmas about the scheduler model -/

theorem countExec_set (l : List Phase) :
    ∀ (i : Nat) (hi : i < l.length) (v : Phase),
      countExec (l.set i v) + (if l.get ⟨i, hi⟩ = Phase.executing then 1 else 0)
        = countExec l + (if v = Phase.executing then 1 else 0) := by
  induction l with
  | nil => intro i hi v; simp at hi
  | cons p ps ih =>
      intro i hi v
      cases i with
      | zero => simp only [List.set, countExec, List.get]; omega
      | succ i =>
          simp only [List.set, countExec, List.get]
          have := ih i (by simpa using hi) v
          omega

theorem countExec_replicate_pending (n : Nat) :
    countExec (List.replicate n Phase.pending) = 0 := by
  induction n with
  | zero => rfl
  | succ n ih => simp [List.replicate, countExec, ih]

theorem countExec_eq_zero_of_all_done (l : List Phase)
    (h : ∀ (i : Nat) (hi : i < l.length), ∃ e, l.get ⟨i, hi⟩ = Phase.done e) :
    countExec l = 0 := by
  induction l with
  | nil => rfl
  | cons p ps ih =>
      obtain ⟨e, he⟩ := h 0 (by simp)
      simp only [List.get] at he
      subst he
      simp only [countExec]
      rw [ih (fun i hi => h (i + 1) (by simpa using hi))]
      simp

theorem step_inv {α : Type} {backend : List α → BackendOutcome}
    {calls : List (List α)} {s s' : SchedState}
    (hstep : Step backend calls s s')
    (hinv : s.avail + countExec s.phases = MAX_CONCURRENT_ROWS) :
    s'.avail + countExec s'.phases = MAX_CONCURRENT_ROWS := by
  cases hstep with
  | acquire i hi hp hpos =>
      have hset := countExec_set s.phases i hi Phase.executing
      rw [hp] at hset
      simp at hset ⊢
      omega
  | finishTask i hi hic hp =>
      have hset := countExec_set s.phases i hi
        (Phase.done (TaskExit.completed (process_row backend (calls.get ⟨i, hic⟩))))
      rw [hp] at hset
      simp at hset ⊢
      omega
  | cancelTask i hi hp =>
      have hset := countExec_set s.phases i hi (Phase.done TaskExit.cancelled)
      rw [hp] at hset
      simp at hset ⊢
      omega

theorem reachable_inv {α : Type} (backend : List α → BackendOutcome)
    (calls : List (List α)) (s : SchedState) (h : Reachable backend calls s) :
    s.avail + countExec s.phases = MAX_CONCURRENT_ROWS := by
  induction h with
  | refl => simp [initState, countExec_replicate_pending]
  | tail hsteps hstep ih => exact step_inv hstep ih

/-! ### Small facts about `process_row` on the two backend outcomes -/

theorem process_row_ok {α : Type} (backend : List α → BackendOutcome)
    (row : List α) (st : SessionState) (hb : backend row = BackendOutcome.ok st) :
    process_row backend row = RowResult.reply (jsonDumpsStructured st) := by
  simp [process_row, hb]

theorem process_row_err {α : Type} (backend : List α → BackendOutcome)
    (row : List α) (e : PyError) (hb : backend row = BackendOutcome.err e) :
    process_row backend row =
      (if isQuotaMsg (errMsg e) then RowResult.transient (errMsg e)
       else RowResult.reply (jsonDumpsError (errMsg e))) := by
  simp [process_row, hb]

theorem rowIsTransient_of_ok {α : Type} (backend : List α → BackendOutcome)
    (row : List α) (st : SessionState) (hb : backend row = BackendOutcome.ok st) :
    rowIsTransient backend row = false := by
  simp [rowIsTransient, process_row_ok backend row st hb]

theorem rowIsTransient_of_err_not_quota {α : Type} (backend : List α → BackendOutcome)
    (row : List α) (e : PyError) (hb : backend row = BackendOutcome.err e)
    (hq : isQuotaMsg (errMsg e) = false) :
    rowIsTransient backend row = false := by
  simp [rowIsTransient, process_row_err backend row e hb, hq]

theorem getReplyStr_of_ok {α : Type} (backend : List α → BackendOutcome)
    (row : List α) (st : SessionState) (hb : backend row = BackendOutcome.ok st) :
    getReplyStr backend row = jsonDumpsStructured st := by
  simp [getReplyStr, process_row_ok backend row st hb]

theorem getReplyStr_of_err_not_quota {α : Type} (backend : List α → BackendOutcome)
    (row : List α) (e : PyError) (hb : backend row = BackendOutcome.err e)
    (hq : isQuotaMsg (errMsg e) = false) :
    getReplyStr backend row = jsonDumpsError (errMsg e) := by
  simp [getReplyStr, process_row_err backend row e hb, hq]

/-! ### Concrete instances used by the witnesses -/

/-- A fixed session state for witness backends. -/
def stateOK : SessionState :=
  { security_results := some "FLAG", billing_results := none
    retention_results := none }

/-- The permanent witness error raised for row `[3]`. -/
def badRowErr : PyError :=
  { typeName := "ValueError", msg := "bad row", subExceptions := [] }

/-- A witness backend over rows of naturals: row `[2]` hits a quota error,
row `[3]` hits a generic permanent error, anything else succeeds. -/
def wbackend : List Nat → BackendOutcome := fun row =>
  if row = [2] then
    BackendOutcome.err { typeName := "ClientError"
                         msg := "429 RESOURCE_EXHAUSTED: quota blown", subExceptions := [] }
  else if row = [3] then BackendOutcome.err badRowErr
  else BackendOutcome.ok stateOK

/-- A one-row batch for the scheduler witnesses. -/
def wcalls : List (List Nat) := [[1]]

/-! ### The claims -/

/-- C1: if any item of any processed chunk is classified transient, the whole
batch call resolves to the quota-retry `HTTPException` (status 500, message
naming 429/retry) and never to a (partial) replies list; the outcome is the
same however the batch is extended with further items, so no chunk after the
one containing the transient error can contribute anything. -/
theorem transient_error_aborts_batch_with_retry {α : Type}
    (backend : List α → BackendOutcome) (calls : List (List α))
    (h : ∃ r ∈ calls, rowIsTransient backend r = true) :
    process_bq_batch backend (fun _ => none) calls = Except.error quotaRetryExc ∧
    quotaRetryExc.status_code = 500 ∧
    strContains quotaRetryExc.detail "429" = true ∧
    ∀ extra : List (List α),
      process_bq_batch backend (fun _ => none) (calls ++ extra)
        = Except.error quotaRetryExc := by
  obtain ⟨r, hr, ht⟩ := h
  refine ⟨batch_error_of_transient backend calls ⟨r, hr, ht⟩, rfl, rfl, ?_⟩
  intro extra
  exact batch_error_of_transient backend _ ⟨r, List.mem_append.mpr (Or.inl hr), ht⟩

/-- Witness for C1 on the concrete batch `[[1], [2], [3]]` where row `[2]`
raises a quota error. -/
theorem transient_error_aborts_batch_with_retry_witness :
    (∃ r ∈ ([[1], [2], [3]] : List (List Nat)), rowIsTransient wbackend r = true) ∧
    process_bq_batch wbackend (fun _ => none) [[1], [2], [3]]
      = Except.error quotaRetryExc := by
  have h : ∃ r ∈ ([[1], [2], [3]] : List (List Nat)),
      rowIsTransient wbackend r = true := ⟨[2], by simp, rfl⟩
  exact ⟨h, (transient_error_aborts_batch_with_retry wbackend [[1], [2], [3]] h).1⟩

/-- C2: a batch with no transient-classified item resolves to exactly one
reply per item, and the reply at position `i` is precisely the string
`process_row` produces for call `i` (order mirrors input order). -/
theorem no_transient_batch_returns_all_replies_in_order {α : Type}
    (backend : List α → BackendOutcome) (calls : List (List α))
    (h : ∀ r ∈ calls, rowIsTransient backend r = false) :
    ∃ rs : List String,
      process_bq_batch backend (fun _ => none) calls = Except.ok ⟨rs⟩ ∧
      rs.length = calls.length ∧
      ∀ (i : Nat) (hi : i < calls.length) (hi' : i < rs.length),
        process_row backend (calls.get ⟨i, hi⟩) = RowResult.reply (rs.get ⟨i, hi'⟩) := by
  refine ⟨calls.map (getReplyStr backend),
    batch_ok_of_no_transient backend calls h, by simp, ?_⟩
  intro i hi hi'
  rw [process_row_of_not_transient backend (calls.get ⟨i, hi⟩)
    (h _ (calls.get_mem i hi))]
  congr 1
  simp

/-- Witness for C2 on the concrete batch `[[1], [3]]` (one success, one
permanent error, no transient). -/
theorem no_transient_batch_returns_all_replies_in_order_witness :
    (∀ r ∈ ([[1], [3]] : List (List Nat)), rowIsTransient wbackend r = false) ∧
    ∃ rs : List String,
      process_bq_batch wbackend (fun _ => none) [[1], [3]] = Except.ok ⟨rs⟩ ∧
      rs.length = ([[1], [3]] : List (List Nat)).length ∧
      ∀ (i : Nat) (hi : i < ([[1], [3]] : List (List Nat)).length) (hi' : i < rs.length),
        process_row wbackend (([[1], [3]] : List (List Nat)).get ⟨i, hi⟩)
          = RowResult.reply (rs.get ⟨i, hi'⟩) := by
  have h : ∀ r ∈ ([[1], [3]] : List (List Nat)), rowIsTransient wbackend r = false := by
    intro r hr
    simp only [List.mem_cons, List.not_mem_nil, or_false] at hr
    rcases hr with rfl | rfl <;> rfl
  exact ⟨h, no_transient_batch_returns_all_replies_in_order wbackend [[1], [3]] h⟩

/-- C3: an error raised during one item is classified transient exactly when
its message — after unwrapping the first sub-exception of an exception group,
when present — contains the 429 code or the resource-exhaustion marker; every
other error becomes that item's per-item JSON error payload (the task returns
it instead of raising). -/
theorem row_error_classification {α : Type} (backend : List α → BackendOutcome)
    (row : List α) (e : PyError) (hb : backend row = BackendOutcome.err e) :
    (rowIsTransient backend row = true ↔ isQuotaMsg (errMsg e) = true) ∧
    (isQuotaMsg (errMsg e) = true →
      process_row backend row = RowResult.transient (errMsg e)) ∧
    (isQuotaMsg (errMsg e) = false →
      process_row backend row = RowResult.reply (jsonDumpsError (errMsg e))) ∧
    (e.subExceptions = [] → errMsg e = e.msg) ∧
    (∀ s ss, e.subExceptions = s :: ss →
      errMsg e = e.typeName ++ " sub-error: " ++ s) ∧
    isQuotaMsg (errMsg e)
      = (strContains (errMsg e) "429" || strContains (errMsg e) "RESOURCE_EXHAUSTED") := by
  refine ⟨?_, ?_, ?_, ?_, ?_, rfl⟩
  · rw [rowIsTransient, process_row_err backend row e hb]
    cases hq : isQuotaMsg (errMsg e) <;> simp [hq]
  · intro hq
    rw [process_row_err backend row e hb, hq]
    rfl
  · intro hq
    rw [process_row_err backend row e hb, hq]
    rfl
  · intro hnil
    simp [errMsg, hnil]
  · intro s ss hcons
    simp [errMsg, hcons]

/-- Witness for C3 at the concrete permanent error of row `[3]`. -/
theorem row_error_classification_witness :
    wbackend [3] = BackendOutcome.err badRowErr ∧
    (rowIsTransient wbackend [3] = true ↔ isQuotaMsg (errMsg badRowErr) = true) := by
  have hb : wbackend [3] = BackendOutcome.err badRowErr := rfl
  exact ⟨hb, (row_error_classification wbackend [3] _ hb).1⟩

/-- C4: when exactly one item `k` hits a permanent (non-quota) error and
every other item succeeds, the batch still resolves to one entry per item:
entry `k` is the JSON error payload carrying that error's message, every
other entry is the structured success result for its own row, at its
original position. -/
theorem single_permanent_error_isolated {α : Type} (backend : List α → BackendOutcome)
    (calls : List (List α)) (k : Nat) (hk : k < calls.length) (e : PyError)
    (hbk : backend (calls.get ⟨k, hk⟩) = BackendOutcome.err e)
    (hperm : isQuotaMsg (errMsg e) = false)
    (hothers : ∀ (j : Nat) (hj : j < calls.length), j ≠ k →
      ∃ st, backend (calls.get ⟨j, hj⟩) = BackendOutcome.ok st) :
    ∃ rs : List String,
      process_bq_batch backend (fun _ => none) calls = Except.ok ⟨rs⟩ ∧
      rs.length = calls.length ∧
      (∀ hk' : k < rs.length, rs.get ⟨k, hk'⟩ = jsonDumpsError (errMsg e)) ∧
      (∀ (j : Nat) (hj : j < calls.length) (hj' : j < rs.length), j ≠ k →
        ∃ st, backend (calls.get ⟨j, hj⟩) = BackendOutcome.ok st ∧
          rs.get ⟨j, hj'⟩ = jsonDumpsStructured st) := by
  have hnt : ∀ r ∈ calls, rowIsTransient backend r = false := by
    intro r hr
    obtain ⟨⟨i, hi⟩, rfl⟩ := List.mem_iff_get.mp hr
    by_cases hik : i = k
    · subst hik
      exact rowIsTransient_of_err_not_quota backend _ e hbk hperm
    · obtain ⟨st, hst⟩ := hothers i hi hik
      exact rowIsTransient_of_ok backend _ st hst
  refine ⟨calls.map (getReplyStr backend),
    batch_ok_of_no_transient backend calls hnt, by simp, ?_, ?_⟩
  · intro hk'
    have : (calls.map (getReplyStr backend)).get ⟨k, hk'⟩
        = getReplyStr backend (calls.get ⟨k, hk⟩) := by simp
    rw [this, getReplyStr_of_err_not_quota backend _ e hbk hperm]
  · intro j hj hj' hjk
    obtain ⟨st, hst⟩ := hothers j hj hjk
    refine ⟨st, hst, ?_⟩
    have : (calls.map (getReplyStr backend)).get ⟨j, hj'⟩
        = getReplyStr backend (calls.get ⟨j, hj⟩) := by simp
    rw [this, getReplyStr_of_ok backend _ st hst]

/-- Witness for C4 on `[[1], [3], [4]]`: item 1 (row `[3]`) fails permanently,
items 0 and 2 succeed. -/
theorem single_permanent_error_isolated_witness :
    (1 : Nat) < ([[1], [3], [4]] : List (List Nat)).length ∧
    ∃ rs : List String,
      process_bq_batch wbackend (fun _ => none) [[1], [3], [4]] = Except.ok ⟨rs⟩ ∧
      rs.length = ([[1], [3], [4]] : List (List Nat)).length ∧
      (∀ hk' : 1 < rs.length,
        rs.get ⟨1, hk'⟩ = jsonDumpsError (errMsg badRowErr)) ∧
      (∀ (j : Nat) (hj : j < ([[1], [3], [4]] : List (List Nat)).length)
          (hj' : j < rs.length), j ≠ 1 →
        ∃ st, wbackend (([[1], [3], [4]] : List (List Nat)).get ⟨j, hj⟩)
            = BackendOutcome.ok st ∧
          rs.get ⟨j, hj'⟩ = jsonDumpsStructured st) := by
  have hk : (1 : Nat) < ([[1], [3], [4]] : List (List Nat)).length := by simp
  have hbk : wbackend (([[1], [3], [4]] : List (List Nat)).get ⟨1, hk⟩)
      = BackendOutcome.err badRowErr := rfl
  have hothers : ∀ (j : Nat) (hj : j < ([[1], [3], [4]] : List (List Nat)).length),
      j ≠ 1 → ∃ st, wbackend (([[1], [3], [4]] : List (List Nat)).get ⟨j, hj⟩)
        = BackendOutcome.ok st := by
    intro j hj hjk
    match j with
    | 0 => exact ⟨stateOK, rfl⟩
    | 1 => exact absurd rfl hjk
    | 2 => exact ⟨stateOK, rfl⟩
    | n + 3 => simp at hj
  exact ⟨hk, single_permanent_error_isolated wbackend [[1], [3], [4]] 1 hk _
    hbk rfl hothers⟩

/-- C5: in every reachable interleaving of the row tasks, for every batch,
the number of tasks simultaneously holding a gate slot never exceeds the
configured limit `MAX_CONCURRENT_ROWS` (10). -/
theorem gate_never_exceeds_limit {α : Type} (backend : List α → BackendOutcome)
    (calls : List (List α)) (s : SchedState) (h : Reachable backend calls s) :
    countExec s.phases ≤ MAX_CONCURRENT_ROWS := by
  have hinv := reachable_inv backend calls s h
  omega

/-- Witness for C5: after one task of a one-row batch acquires the gate, the
in-flight count is within the limit. -/
theorem gate_never_exceeds_limit_witness :
    Reachable wbackend wcalls { phases := [Phase.executing], avail := 9 } ∧
    countExec ({ phases := [Phase.executing], avail := 9 } : SchedState).phases
      ≤ MAX_CONCURRENT_ROWS := by
  have hstep : Step wbackend wcalls (initState wcalls)
      { phases := [Phase.executing], avail := 9 } :=
    Step.acquire (initState wcalls) 0 (by decide) rfl (by decide)
  have hreach : Reachable wbackend wcalls { phases := [Phase.executing], avail := 9 } :=
    Relation.ReflTransGen.single hstep
  exact ⟨hreach, gate_never_exceeds_limit wbackend wcalls _ hreach⟩

/-- C6: along every reachable interleaving the gate is never over-released
(the available count never exceeds `MAX_CONCURRENT_ROWS`), and once every
task of the batch has exited — completing with its `process_row` outcome,
raising, or being cancelled — the available count is fully restored to
`MAX_CONCURRENT_ROWS`: each slot acquired was released exactly once,
whatever the combination of exit paths. -/
theorem gate_restored_after_all_exits {α : Type} (backend : List α → BackendOutcome)
    (calls : List (List α)) (s : SchedState) (h : Reachable backend calls s) :
    s.avail ≤ MAX_CONCURRENT_ROWS ∧
    ((∀ (i : Nat) (hi : i < s.phases.length), ∃ e, s.phases.get ⟨i, hi⟩ = Phase.done e) →
      s.avail = MAX_CONCURRENT_ROWS) := by
  have hinv := reachable_inv backend calls s h
  refine ⟨by omega, fun hdone => ?_⟩
  have hz := countExec_eq_zero_of_all_done s.phases hdone
  omega

/-- Witness for C6: run the one-row batch to completion (acquire, then finish);
the gate count returns to 10. -/
theorem gate_restored_after_all_exits_witness :
    Reachable wbackend wcalls
      { phases := [Phase.done (TaskExit.completed (process_row wbackend [1]))]
        avail := 10 } ∧
    ({ phases := [Phase.done (TaskExit.completed (process_row wbackend [1]))]
       avail := 10 } : SchedState).avail = MAX_CONCURRENT_ROWS := by
  have hstep1 : Step wbackend wcalls (initState wcalls)
      { phases := [Phase.executing], avail := 9 } :=
    Step.acquire (initState wcalls) 0 (by decide) rfl (by decide)
  have hstep2 : Step wbackend wcalls { phases := [Phase.executing], avail := 9 }
      { phases := [Phase.done (TaskExit.completed (process_row wbackend [1]))]
        avail := 10 } :=
    Step.finishTask { phases := [Phase.executing], avail := 9 } 0
      (by decide) (by decide) rfl
  have hreach : Reachable wbackend wcalls
      { phases := [Phase.done (TaskExit.completed (process_row wbackend [1]))]
        avail := 10 } :=
    Relation.ReflTransGen.tail (Relation.ReflTransGen.single hstep1) hstep2
  refine ⟨hreach, ?_⟩
  refine (gate_restored_after_all_exits wbackend wcalls _ hreach).2 ?_
  intro i hi
  match i with
  | 0 => exact ⟨_, rfl⟩
  | n + 1 => simp at hi

/-- C7: a fault in the orchestration itself (the gathering of a chunk) aborts
the whole batch with the internal-batch error, which differs from the
quota-retry signal; and whatever the fault oracle does, a batch with no
quota-classified row never resolves to the quota-retry signal. -/
theorem orchestration_fault_distinct_internal_error {α : Type}
    (backend : List α → BackendOutcome) (e : PyError) (calls : List (List α))
    (hne : calls ≠ []) :
    process_bq_batch backend (fun _ => some e) calls = Except.error internalBatchExc ∧
    internalBatchExc ≠ quotaRetryExc ∧
    ∀ fault : Nat → Option PyError,
      (∀ r ∈ calls, rowIsTransient backend r = false) →
      process_bq_batch backend fault calls ≠ Except.error quotaRetryExc := by
  refine ⟨?_, by decide, ?_⟩
  · cases calls with
    | nil => exact absurd rfl hne
    | cons x xs =>
        unfold process_bq_batch chunkList
        rw [List.length_cons]
        rw [show chunkListAux (xs.length + 1) (x :: xs)
            = (x :: xs.take (CHUNK_SIZE - 1))
              :: chunkListAux xs.length (xs.drop (CHUNK_SIZE - 1)) from rfl]
        rw [runChunks_fault]
        rfl
  · intro fault hnt hcontra
    have hrc : runChunks backend fault (chunkList calls) 0 []
        = Except.error quotaRetryExc := by
      unfold process_bq_batch at hcontra
      cases hr : runChunks backend fault (chunkList calls) 0 [] with
      | error e' =>
          rw [hr] at hcontra
          simp only [Except.map, Except.error.injEq] at hcontra
          rw [hcontra]
      | ok v =>
          rw [hr] at hcontra
          simp [Except.map] at hcontra
    exact runChunks_no_quota backend fault (chunkList calls) 0 []
      (by rw [chunkList_flatten]; exact hnt) hrc

/-- Witness for C7 on the one-row batch `[[1]]` with a generic orchestration
fault. -/
theorem orchestration_fault_distinct_internal_error_witness :
    (([[1]] : List (List Nat)) ≠ []) ∧
    process_bq_batch wbackend
        (fun _ => some { typeName := "RuntimeError", msg := "boom", subExceptions := [] })
        [[1]]
      = Except.error internalBatchExc := by
  have hne : (([[1]] : List (List Nat)) ≠ []) := by simp
  exact ⟨hne, (orchestration_fault_distinct_internal_error wbackend
    { typeName := "RuntimeError", msg := "boom", subExceptions := [] } [[1]] hne).1⟩

/-- C8: the executor partitions the batch into `ceil(N / CHUNK_SIZE)`
consecutive chunks of at most `CHUNK_SIZE` items whose in-order concatenation
is the input, and processes them as successive waves (`runChunks` consumes
the chunk list in order). -/
theorem chunking_partitions_input {α : Type} (calls : List (List α)) :
    (chunkList calls).length = (calls.length + (CHUNK_SIZE - 1)) / CHUNK_SIZE ∧
    (chunkList calls).flatten = calls ∧
    (∀ c ∈ chunkList calls, c.length ≤ CHUNK_SIZE ∧ c ≠ []) ∧
    ∀ (backend : List α → BackendOutcome) (fault : Nat → Option PyError),
      process_bq_batch backend fault calls
        = Except.map BQResponse.mk (runChunks backend fault (chunkList calls) 0 []) :=
  ⟨chunkList_length calls, chunkList_flatten calls,
    fun c hc => chunkListAux_mem _ _ c hc, fun _ _ => rfl⟩

/-- C9: no cross-item leakage — in two (possibly different) batches with no
transient item, items carrying the same row values receive the same reply,
whatever the surrounding items are: each item's reply is a function of its
own row values and the backend alone. -/
theorem no_cross_item_interference {α : Type} (backend : List α → BackendOutcome)
    (calls calls' : List (List α)) (i j : Nat)
    (hi : i < calls.length) (hj : j < calls'.length)
    (hrow : calls.get ⟨i, hi⟩ = calls'.get ⟨j, hj⟩)
    (h1 : ∀ r ∈ calls, rowIsTransient backend r = false)
    (h2 : ∀ r ∈ calls', rowIsTransient backend r = false) :
    ∃ (rs rs' : List String),
      process_bq_batch backend (fun _ => none) calls = Except.ok ⟨rs⟩ ∧
      process_bq_batch backend (fun _ => none) calls' = Except.ok ⟨rs'⟩ ∧
      rs.length = calls.length ∧ rs'.length = calls'.length ∧
      ∀ (hi' : i < rs.length) (hj' : j < rs'.length),
        rs.get ⟨i, hi'⟩ = rs'.get ⟨j, hj'⟩ := by
  refine ⟨calls.map (getReplyStr backend), calls'.map (getReplyStr backend),
    batch_ok_of_no_transient backend calls h1,
    batch_ok_of_no_transient backend calls' h2, by simp, by simp, ?_⟩
  intro hi' hj'
  have hg : (calls.map (getReplyStr backend)).get ⟨i, hi'⟩
      = getReplyStr backend (calls.get ⟨i, hi⟩) := by simp
  have hg' : (calls'.map (getReplyStr backend)).get ⟨j, hj'⟩
      = getReplyStr backend (calls'.get ⟨j, hj⟩) := by simp
  rw [hg, hg', hrow]

/-- Witness for C9: row `[3]` at position 1 of `[[1], [3]]` and at position 0
of `[[3], [4]]` gets the same reply. -/
theorem no_cross_item_interference_witness :
    (([[1], [3]] : List (List Nat)).get ⟨1, by simp⟩
      = ([[3], [4]] : List (List Nat)).get ⟨0, by simp⟩) ∧
    ∃ (rs rs' : List String),
      process_bq_batch wbackend (fun _ => none) [[1], [3]] = Except.ok ⟨rs⟩ ∧
      process_bq_batch wbackend (fun _ => none) [[3], [4]] = Except.ok ⟨rs'⟩ ∧
      rs.length = ([[1], [3]] : List (List Nat)).length ∧
      rs'.length = ([[3], [4]] : List (List Nat)).length ∧
      ∀ (hi' : 1 < rs.length) (hj' : 0 < rs'.length),
        rs.get ⟨1, hi'⟩ = rs'.get ⟨0, hj'⟩ := by
  have h1 : ∀ r ∈ ([[1], [3]] : List (List Nat)), rowIsTransient wbackend r = false := by
    intro r hr
    simp only [List.mem_cons, List.not_mem_nil, or_false] at hr
    rcases hr with rfl | rfl <;> rfl
  have h2 : ∀ r ∈ ([[3], [4]] : List (List Nat)), rowIsTransient wbackend r = false := by
    intro r hr
    simp only [List.mem_cons, List.not_mem_nil, or_false] at hr
    rcases hr with rfl | rfl <;> rfl
  exact ⟨rfl, no_cross_item_interference wbackend [[1], [3]] [[3], [4]] 1 0
    (by simp) (by simp) rfl h1 h2⟩

/-- C10: the empty batch is accepted: it yields zero chunks, so zero chunk
iterations, and the endpoint resolves to a success response whose replies
list is empty. -/
theorem empty_batch_returns_empty_replies {α : Type}
    (backend : List α → BackendOutcome) (fault : Nat → Option PyError) :
    chunkList ([] : List (List α)) = [] ∧
    process_bq_batch backend fault [] = Except.ok ⟨[]⟩ :=
  ⟨rfl, rfl⟩

end BatchExecutor
